import Mathlib

/-!
The blhost serial layer (`src/blfwk/src/serial.c`)

A shallow embedding of the serial-port access layer and proofs about it.

The operating system is not part of the program, so every OS primitive the code calls
(`read`, `write`, `WriteFile`, `cfsetospeed`, `tcsetattr`, ...) is an input of the embedding:
the value the primitive returns is supplied by the caller of the model, and the model records
the calls it issues in a trace.

C `int` values are mathematical integers here.  Under the contract of `read(2)` (the result is
`-1` or a byte count not above the requested one) every intermediate value of `serial_read`
lies in `[0, size]`, so no signed overflow can occur (proved below for C3).
-/

namespace Blhost

/-! ## Integer conversions -/

/-- Conversion of an integer value to C `int` (32 bits, two's complement). -/
def to_int (x : Int) : Int := (x + 2147483648) % 4294967296 - 2147483648

/-- Conversion of an unsigned value to `cc_t`, the 8-bit unsigned type of the termios control
characters `c_cc[...]`. -/
def to_cc_t (x : Nat) : Nat := x % 256

namespace Posix

/-! ## `serial_read`, POSIX variant (serial.c lines 283-310) -/

/-- One low-level `read(fd, buf + len, size - len)` issued by `serial_read`:
the offset into the caller's buffer, the byte count asked for, and what the call returned. -/
structure ReadCall where
  offset : Int
  count : Int
  ret : Int
deriving DecidableEq

/-- What a run of `serial_read` did: the value returned (`none` while the loop is still
running when the iteration budget ends) and the low-level reads issued, in order. -/
structure ReadRun where
  result : Option Int
  calls : List ReadCall
deriving DecidableEq

/-- Put a low-level read in front of the reads of the rest of the run. -/
def ReadRun.issue (c : ReadCall) (r : ReadRun) : ReadRun :=
  ⟨r.result, c :: r.calls⟩

/-- The `while (len < size)` loop of `serial_read`.
`os_read n` is what the `n`-th low-level read (counted from 0) returns; the first argument
bounds the number of evaluations of the loop condition; `n` is the number of low-level reads
issued so far; `len` and `timeout` are the C locals of the same names. -/
def serial_read_loop (os_read : Nat → Int) (size : Int) : Nat → Nat → Int → Int → ReadRun
  | 0, _, _, _ => ⟨none, []⟩
  | fuel + 1, n, len, timeout =>
    if len < size then
      let ret := os_read n
      let c : ReadCall := ⟨len, size - len, ret⟩
      if ret = -1 then
        ⟨some (-1), [c]⟩
      else if ret = 0 then
        if timeout + 1 ≥ 10 then
          ⟨some len, [c]⟩
        else
          (serial_read_loop os_read size fuel (n + 1) len (timeout + 1)).issue c
      else
        (serial_read_loop os_read size fuel (n + 1) (len + ret) timeout).issue c
    else
      ⟨some len, []⟩

/-- The POSIX variant of `serial_read(fd, buf, size)`: `len = 0`, `timeout = 0`, then the loop. -/
def serial_read (os_read : Nat → Int) (size : Int) (fuel : Nat) : ReadRun :=
  serial_read_loop os_read size fuel 0 0 0

/-- The value a low-level read returned. -/
def rets (calls : List ReadCall) : List Int := calls.map ReadCall.ret

/-- The low-level reads that returned zero bytes (idle results). -/
def idle (calls : List ReadCall) : List ReadCall := calls.filter (fun c => c.ret = 0)

/-- The contract of `read(2)` on one call: the result is `-1` or a byte count between 0 and
the count requested. -/
def ReadCall.ok (c : ReadCall) : Prop := c.ret = -1 ∨ (0 ≤ c.ret ∧ c.ret ≤ c.count)

instance (c : ReadCall) : Decidable c.ok := by unfold ReadCall.ok; infer_instance

/-- The `k` results the source gives from its position `n` on. -/
def results_from (os_read : Nat → Int) : Nat → Nat → List Int
  | _, 0 => []
  | n, k + 1 => os_read n :: results_from os_read (n + 1) k

/-! ### Sample sources -/

/-- A source that is idle nine times, then delivers one byte, then is idle again. -/
def nine_idle_then_one : Nat → Int := fun n => if n = 9 then 1 else 0

/-- A source that delivers one byte and fails from then on. -/
def one_then_error : Nat → Int := fun n => if n = 0 then 1 else -1

/-- A source that is idle ten times and fails from then on. -/
def ten_idle_then_error : Nat → Int := fun n => if n < 10 then 0 else -1

/-- A source that delivers two bytes and then fails. -/
def two_then_error : Nat → Int := fun n => if n = 0 then 2 else -1

/-- A source that delivers two bytes, is idle once, and then delivers three more. -/
def two_idle_three : Nat → Int := fun n => if n = 0 then 2 else if n = 1 then 0 else 3

end Posix

/-! ## `serial_write` (serial.c lines 249-266) -/

/-- One call of the OS write primitive: the bytes handed over and the byte count. -/
structure WriteCall where
  buf : List Nat
  size : Int
deriving DecidableEq

namespace Posix

/-- The POSIX variant of `serial_write(fd, buf, size)`: `return write(fd, buf, size);`.
`os_write` is what `write(2)` returns; the result is the value returned, converted to the
`int` return type, and the OS calls made. -/
def serial_write (os_write : List Nat → Int → Int) (buf : List Nat) (size : Int) :
    Int × List WriteCall :=
  (to_int (os_write buf size), [⟨buf, size⟩])

end Posix

/-! ## `serial_setup` and `serial_set_read_timeout`, Linux variant
(serial.c lines 70-140 and 207-235) -/

namespace Linux

/-- How a line speed was put into a `struct termios`. -/
inductive Rate where
  | standard (constant : Nat)
  | custom (speed : Nat)
deriving DecidableEq

/-- The part of `struct termios` the serial layer computes: the two line speeds and the
control characters `c_cc[VTIME]` and `c_cc[VMIN]`. The flag words get fixed values
(raw mode, 8N1, `CLOCAL | CREAD`) that no branch depends on. -/
structure termios where
  ospeed : Option Rate
  ispeed : Option Rate
  c_cc_VTIME : Nat
  c_cc_VMIN : Nat
deriving DecidableEq

/-- The symbolic speed constants of `<termios.h>`; their values belong to the platform. -/
structure BaudConstants where
  B9600 : Nat
  B19200 : Nat
  B38400 : Nat
  B57600 : Nat
  B115200 : Nat
  B230400 : Nat

/-- A call `serial_setup` makes into the OS. -/
inductive OsCall where
  | cfsetospeed (speed : Nat)
  | cfsetispeed (speed : Nat)
  | cfsetospeed_custom (speed : Nat)
  | cfsetispeed_custom (speed : Nat)
  | tcsetattr (tty : termios)
deriving DecidableEq

/-- The status each OS call reports (negative: failure). -/
structure Os where
  cfsetospeed : Nat → Int
  cfsetispeed : Nat → Int
  cfsetospeed_custom : Nat → Int
  cfsetispeed_custom : Nat → Int
  tcsetattr : termios → Int

/-- The status the OS reports for a call. -/
def Os.status (os : Os) : OsCall → Int
  | .cfsetospeed s => os.cfsetospeed s
  | .cfsetispeed s => os.cfsetispeed s
  | .cfsetospeed_custom s => os.cfsetospeed_custom s
  | .cfsetispeed_custom s => os.cfsetispeed_custom s
  | .tcsetattr tty => os.tcsetattr tty

/-- The `switch (speed)` of `serial_setup`: the new value of `speed` and of `custom_speed`. -/
def speed_switch (B : BaudConstants) (speed : Nat) : Nat × Bool :=
  if speed = 9600 then (B.B9600, false)
  else if speed = 19200 then (B.B19200, false)
  else if speed = 38400 then (B.B38400, false)
  else if speed = 57600 then (B.B57600, false)
  else if speed = 115200 then (B.B115200, false)
  else if speed = 230400 then (B.B230400, false)
  else (speed, true)

/-- The tail of `serial_setup`: `VTIME = 0`, `VMIN = 0`, then `tcsetattr`. -/
def serial_setup_apply (os : Os) (tty : termios) (calls : List OsCall) : Int × List OsCall :=
  let tty := { tty with c_cc_VTIME := to_cc_t 0 }
  let tty := { tty with c_cc_VMIN := to_cc_t 0 }
  if os.tcsetattr tty < 0 then
    (-1, calls ++ [.tcsetattr tty])
  else
    (0, calls ++ [.tcsetattr tty])

/-- The Linux variant of `serial_setup(fd, speed)`: the value returned and the OS calls made,
in order. -/
def serial_setup (B : BaudConstants) (os : Os) (speed : Nat) : Int × List OsCall :=
  let tty : termios := ⟨none, none, 0, 0⟩
  let sw := speed_switch B speed
  let speed := sw.1
  let custom_speed := sw.2
  if custom_speed then
    if os.cfsetospeed_custom speed < 0 then
      (-1, [.cfsetospeed_custom speed])
    else if os.cfsetispeed_custom speed < 0 then
      (-1, [.cfsetospeed_custom speed, .cfsetispeed_custom speed])
    else
      serial_setup_apply os { tty with ospeed := some (.custom speed), ispeed := some (.custom speed) }
        [.cfsetospeed_custom speed, .cfsetispeed_custom speed]
  else
    if os.cfsetospeed speed < 0 then
      (-1, [.cfsetospeed speed])
    else if os.cfsetispeed speed < 0 then
      (-1, [.cfsetospeed speed, .cfsetispeed speed])
    else
      serial_setup_apply os
        { tty with ospeed := some (.standard speed), ispeed := some (.standard speed) }
        [.cfsetospeed speed, .cfsetispeed speed]

/-- The speeds with a symbolic constant in the `switch`. -/
def standard_speeds : List Nat := [9600, 19200, 38400, 57600, 115200, 230400]

/-- The rate table as the specification words it: each canonical rate with its OS symbol. -/
def rate_table (B : BaudConstants) : List (Nat × Nat) :=
  [(9600, B.B9600), (19200, B.B19200), (38400, B.B38400), (57600, B.B57600),
   (115200, B.B115200), (230400, B.B230400)]

/-- The assignment to `tty.c_cc[VTIME]` in `serial_set_read_timeout`. -/
def vtime_of_timeout (timeoutMs : Nat) : Nat :=
  if timeoutMs ≠ 0 ∧ timeoutMs < 100 then
    to_cc_t 1
  else
    to_cc_t (timeoutMs / 100)

/-- The Linux variant of `serial_set_read_timeout(fd, timeoutMs)`: `tcgetattr` gives a status
and the current settings, `tcsetattr` a status for the new ones. Returns the value returned
and the settings handed to `tcsetattr`, if it was called. -/
def serial_set_read_timeout (tcgetattr : Int × termios) (tcsetattr : termios → Int)
    (timeoutMs : Nat) : Int × Option termios :=
  let tty := tcgetattr.2
  if tcgetattr.1 < 0 then
    (-1, none)
  else
    let tty := { tty with c_cc_VTIME := vtime_of_timeout timeoutMs }
    let tty := { tty with c_cc_VMIN := to_cc_t 0 }
    if tcsetattr tty < 0 then
      (-1, some tty)
    else
      (0, some tty)


/-- The values of the speed symbols in the Linux `<termios.h>`. -/
def linux_baud : BaudConstants := ⟨13, 14, 15, 4097, 4098, 4099⟩

/-- An OS that accepts every call. -/
def os_accepts : Os := ⟨fun _ => 0, fun _ => 0, fun _ => 0, fun _ => 0, fun _ => 0⟩

end Linux

/-! ## `serial_write` and `serial_open`, Windows variant (serial.c lines 251-262, 317-338) -/

namespace Win32

/-- The Windows variant of `serial_write(fd, buf, size)`. `WriteFile` gives the `BOOL` it
returns and the count it stores in `bwritten`. -/
def serial_write (WriteFile : List Nat → Int → Bool × Nat) (buf : List Nat) (size : Int) :
    Int × List WriteCall :=
  let r := WriteFile buf size
  let bwritten := r.2
  if !r.1 then
    (0, [⟨buf, size⟩])
  else
    (to_int bwritten, [⟨buf, size⟩])

/-- The terminating character of a C string. -/
def NUL : Char := Char.ofNat 0

/-- The backslash character. -/
def backslash : Char := Char.ofNat 92

/-- The format prefix of the `_snprintf` call: backslash, backslash, dot, backslash. -/
def device_path_lead : List Char := [backslash, backslash, '.', backslash]

/-- The string a `char` array holds: the characters before the first `NUL`. -/
def c_str (memory : List Char) : List Char := memory.takeWhile (fun ch => ch ≠ NUL)

/-- The behaviour of `_snprintf(buffer, count, ...)` of the Microsoft C runtime on a
formatted text: a text shorter than `count` is stored with a terminating `NUL`, a longer one
is cut to `count` characters and stored without terminator. -/
def _snprintf (buffer : List Char) (count : Nat) (text : List Char) : List Char :=
  if text.length < count then
    text ++ NUL :: buffer.drop (text.length + 1)
  else
    text.take count ++ buffer.drop count

/-- The `static char full_path[32] = { 0 }` of `serial_open` before the first call. -/
def full_path_initial : List Char := List.replicate 32 NUL

/-- What the Windows variant of `serial_open(port)` did. -/
structure OpenRun where
  fd : Int
  path : List Char
  full_path : List Char
deriving DecidableEq

/-- The Windows variant of `serial_open(port)`. `full_path` is the content of the static
buffer on entry, `port` the characters of the name (without the terminator), `CreateFileA`
the handle the OS returns for a path (0 for `NULL`, -1 for `INVALID_HANDLE_VALUE`). The run
gives the descriptor returned, the path handed to `CreateFileA`, and the buffer on exit. -/
def serial_open (CreateFileA : List Char → Int) (full_path : List Char) (port : List Char) :
    OpenRun :=
  let r : List Char × List Char :=
    if port.headD NUL ≠ backslash then
      let full_path := _snprintf full_path (32 - 1) (device_path_lead ++ port)
      (c_str full_path, full_path)
    else
      (port, full_path)
  let hCom := CreateFileA r.1
  if hCom = 0 ∨ hCom = -1 then
    ⟨-1, r.1, r.2⟩
  else
    ⟨to_int hCom, r.1, r.2⟩


/-- A name of 28 characters that does not start with a backslash. -/
def long_port_name : List Char := (List.replicate 7 ['C', 'O', 'M', '1']).flatten

/-- A name that starts with a single backslash. -/
def single_backslash_name : List Char := [backslash, 'C', 'O', 'M', '1']

end Win32

/-! ## Theorems -/

namespace Posix

/-! ### Facts about the loop -/

theorem serial_read_loop_succ (os_read : Nat → Int) (size : Int) (fuel n : Nat)
    (len timeout : Int) :
    serial_read_loop os_read size (fuel + 1) n len timeout =
      if len < size then
        if os_read n = -1 then
          ⟨some (-1), [⟨len, size - len, os_read n⟩]⟩
        else if os_read n = 0 then
          if timeout + 1 ≥ 10 then
            ⟨some len, [⟨len, size - len, os_read n⟩]⟩
          else
            (serial_read_loop os_read size fuel (n + 1) len (timeout + 1)).issue
              ⟨len, size - len, os_read n⟩
        else
          (serial_read_loop os_read size fuel (n + 1) (len + os_read n) timeout).issue
            ⟨len, size - len, os_read n⟩
      else
        ⟨some len, []⟩ := rfl

@[simp]
theorem ReadRun.issue_result (c : ReadCall) (r : ReadRun) :
    (r.issue c).result = r.result := rfl

@[simp]
theorem ReadRun.issue_calls (c : ReadCall) (r : ReadRun) :
    (r.issue c).calls = c :: r.calls := rfl

/-- A run that has returned is not changed by a larger iteration budget. -/
theorem serial_read_loop_stable (os_read : Nat → Int) (size : Int) :
    ∀ (fuel n : Nat) (len timeout : Int) (v : Int),
      (serial_read_loop os_read size fuel n len timeout).result = some v →
      ∀ fuel2, fuel ≤ fuel2 →
        serial_read_loop os_read size fuel2 n len timeout =
          serial_read_loop os_read size fuel n len timeout := by
  intro fuel
  induction fuel with
  | zero => intro n len timeout v h; simp [serial_read_loop] at h
  | succ fuel ih =>
    intro n len timeout v h fuel2 hle
    obtain ⟨f2, rfl⟩ : ∃ f2, fuel2 = f2 + 1 := ⟨fuel2 - 1, by omega⟩
    have hle2 : fuel ≤ f2 := by omega
    rw [serial_read_loop_succ] at h ⊢
    rw [serial_read_loop_succ]
    split_ifs at h ⊢ with h1 h2 h3 h4
    · rfl
    · rfl
    · simp only [ReadRun.issue_result] at h
      rw [ih _ _ _ v h f2 hle2]
    · simp only [ReadRun.issue_result] at h
      rw [ih _ _ _ v h f2 hle2]
    · rfl

/-- Against a silent source the loop stops at the tenth idle result. -/
theorem serial_read_loop_silent (os_read : Nat → Int) (size : Int) (hsize : 0 < size)
    (hsilent : ∀ i, os_read i = 0) :
    ∀ (fuel n : Nat) (timeout : Int), 0 ≤ timeout → timeout ≤ 9 →
      (10 - timeout).toNat ≤ fuel →
      serial_read_loop os_read size fuel n 0 timeout =
        ⟨some 0, List.replicate (10 - timeout).toNat ⟨0, size, 0⟩⟩ := by
  intro fuel
  induction fuel with
  | zero => intro n timeout h0 h9 hf; omega
  | succ fuel ih =>
    intro n timeout h0 h9 hf
    rw [serial_read_loop_succ]
    simp only [hsilent n, hsize, if_true, sub_zero]
    norm_num
    by_cases h : 9 ≤ timeout
    · have : timeout = 9 := by omega
      subst this
      simp
    · have h10 : ¬ (10 : Int) ≤ timeout + 1 := by omega
      rw [if_neg h10, ih (n + 1) (timeout + 1) (by omega) (by omega) (by omega)]
      have e : (10 - timeout).toNat = (10 - (timeout + 1)).toNat + 1 := by omega
      rw [e, List.replicate_succ]
      rfl

/-- The results from position `n` on, by index. -/
theorem results_from_eq_map (os_read : Nat → Int) :
    ∀ (k n : Nat), results_from os_read n k = (List.range k).map (fun j => os_read (n + j)) := by
  intro k
  induction k with
  | zero => intro n; rfl
  | succ k ih =>
    intro n
    rw [results_from, ih (n + 1), List.range_succ_eq_map, List.map_cons, List.map_map]
    congr 1
    apply List.map_congr_left
    intro j _
    show os_read (n + 1 + j) = os_read (n + (j + 1))
    congr 1
    omega

/-- The value recorded for each low-level read is the one the source gave for it. -/
theorem serial_read_loop_rets (os_read : Nat → Int) (size : Int) :
    ∀ (fuel n : Nat) (len timeout : Int),
      rets (serial_read_loop os_read size fuel n len timeout).calls =
        results_from os_read n (serial_read_loop os_read size fuel n len timeout).calls.length := by
  intro fuel
  induction fuel with
  | zero => intro n len timeout; rfl
  | succ fuel ih =>
    intro n len timeout
    rw [serial_read_loop_succ]
    split_ifs with h1 h2 h3 h4
    · rfl
    · rfl
    · have := ih (n + 1) len (timeout + 1)
      simp only [rets, ReadRun.issue_calls, List.map_cons, List.length_cons, results_from]
        at this ⊢
      rw [this]
    · have := ih (n + 1) (len + os_read n) timeout
      simp only [rets, ReadRun.issue_calls, List.map_cons, List.length_cons, results_from]
        at this ⊢
      rw [this]
    · rfl

/-- When the next `k` results are byte counts that leave bytes missing and do not fill the
idle counter, and the result after them is `-1`, the loop issues `k + 1` reads and
returns `-1`. -/
theorem serial_read_loop_error_at (os_read : Nat → Int) (size : Int) :
    ∀ (k fuel n : Nat) (len timeout : Int), k + 1 ≤ fuel →
      (∀ r ∈ results_from os_read n k, 0 ≤ r) →
      len + (results_from os_read n k).sum < size →
      timeout + (((results_from os_read n k).filter (fun r => r = 0)).length : Int) < 10 →
      os_read (n + k) = -1 →
      (serial_read_loop os_read size fuel n len timeout).result = some (-1) ∧
        (serial_read_loop os_read size fuel n len timeout).calls.length = k + 1 := by
  intro k
  induction k with
  | zero =>
    intro fuel n len timeout hf _ hroom _ herr
    obtain ⟨f, rfl⟩ : ∃ f, fuel = f + 1 := ⟨fuel - 1, by omega⟩
    have h1 : len < size := by simpa [results_from] using hroom
    have herr2 : os_read n = -1 := by simpa using herr
    rw [serial_read_loop_succ]
    simp [h1, herr2]
  | succ k ih =>
    intro fuel n len timeout hf hpos hroom hidle herr
    obtain ⟨f, rfl⟩ : ∃ f, fuel = f + 1 := ⟨fuel - 1, by omega⟩
    simp only [results_from, List.forall_mem_cons, List.sum_cons] at hpos hroom
    have hrest : 0 ≤ (results_from os_read (n + 1) k).sum := List.sum_nonneg hpos.2
    have h1 : len < size := by omega
    have h2 : os_read n ≠ -1 := by omega
    have herr2 : os_read (n + 1 + k) = -1 := by
      have e : n + 1 + k = n + (k + 1) := by omega
      rw [e]; exact herr
    rw [serial_read_loop_succ]
    simp only [h1, h2, if_true, if_false]
    by_cases h3 : os_read n = 0
    · have hidle2 : timeout + 1 +
          (((results_from os_read (n + 1) k).filter (fun r => r = 0)).length : Int) < 10 := by
        simp only [results_from, List.filter_cons, h3, decide_True, if_true,
          List.length_cons] at hidle
        push_cast at hidle
        omega
      have h4 : ¬ (timeout + 1 ≥ 10) := by omega
      simp only [h3, h4, if_true, if_false, ReadRun.issue_result, ReadRun.issue_calls,
        List.length_cons]
      have := ih f (n + 1) len (timeout + 1) (by omega) hpos.2 (by omega) (by omega) herr2
      exact ⟨this.1, by rw [this.2]⟩
    · have hidle2 : timeout +
          (((results_from os_read (n + 1) k).filter (fun r => r = 0)).length : Int) < 10 := by
        simp only [results_from, List.filter_cons, h3, decide_False, Bool.false_eq_true,
          if_false] at hidle
        exact hidle
      simp only [h3, if_false, ReadRun.issue_result, ReadRun.issue_calls, List.length_cons]
      have := ih f (n + 1) (len + os_read n) timeout (by omega) hpos.2 (by omega) hidle2 herr2
      exact ⟨this.1, by rw [this.2]⟩

/-- Under the contract of `read(2)`, `len` never goes below zero, so a return value of `-1`
comes from the last low-level read issued, for which the source gave `-1`. -/
theorem serial_read_loop_minus_one (os_read : Nat → Int) (size : Int) :
    ∀ (fuel n : Nat) (len timeout : Int), 0 ≤ len →
      (∀ c ∈ (serial_read_loop os_read size fuel n len timeout).calls, c.ok) →
      (serial_read_loop os_read size fuel n len timeout).result = some (-1) →
      ∃ k, (serial_read_loop os_read size fuel n len timeout).calls.length = k + 1 ∧
        os_read (n + k) = -1 := by
  intro fuel
  induction fuel with
  | zero => intro n len timeout hl hw h; simp [serial_read_loop] at h
  | succ fuel ih =>
    intro n len timeout hl hw h
    rw [serial_read_loop_succ] at hw h ⊢
    split_ifs at hw h ⊢ with h1 h2 h3 h4
    · exact ⟨0, rfl, h2⟩
    · simp at h; omega
    · simp only [ReadRun.issue_calls, ReadRun.issue_result, List.forall_mem_cons] at hw h
      obtain ⟨k, hk, hr⟩ := ih _ _ _ hl hw.2 h
      refine ⟨k + 1, by simp [hk], ?_⟩
      have e : n + (k + 1) = n + 1 + k := by omega
      rw [e]; exact hr
    · simp only [ReadRun.issue_calls, ReadRun.issue_result, List.forall_mem_cons] at hw h
      have h0 : 0 ≤ len + os_read n := by
        have := hw.1
        simp only [ReadCall.ok] at this
        omega
      obtain ⟨k, hk, hr⟩ := ih _ _ _ h0 hw.2 h
      refine ⟨k + 1, by simp [hk], ?_⟩
      have e : n + (k + 1) = n + 1 + k := by omega
      rw [e]; exact hr
    · simp at h; omega

/-- A run without a failing read that returns fewer than `size` bytes left the loop through
the idle counter: the idle results of the rest of the run fill the counter up to 10, and the
last read issued was idle. -/
theorem serial_read_loop_short (os_read : Nat → Int) (size : Int) :
    ∀ (fuel n : Nat) (len timeout v : Int), timeout ≤ 9 →
      (∀ c ∈ (serial_read_loop os_read size fuel n len timeout).calls, c.ret ≠ -1) →
      (serial_read_loop os_read size fuel n len timeout).result = some v → v < size →
      ((idle (serial_read_loop os_read size fuel n len timeout).calls).length : Int)
          = 10 - timeout ∧
        ∃ c, (serial_read_loop os_read size fuel n len timeout).calls.getLast? = some c ∧
          c.ret = 0 := by
  intro fuel
  induction fuel with
  | zero => intro n len timeout v ht hw h; simp [serial_read_loop] at h
  | succ fuel ih =>
    intro n len timeout v ht hw h hv
    rw [serial_read_loop_succ] at hw h ⊢
    split_ifs at hw h ⊢ with h1 h2 h3 h4
    · simp at hw; omega
    · refine ⟨?_, _, rfl, h3⟩
      simp [idle, h3]; omega
    · simp only [ReadRun.issue_calls, ReadRun.issue_result, List.forall_mem_cons] at hw h
      obtain ⟨hi, c, hc, hr⟩ := ih _ _ _ v (by omega) hw.2 h hv
      refine ⟨?_, c, ?_, hr⟩
      · simp only [idle, ReadRun.issue_calls] at hi ⊢
        rw [List.filter_cons_of_pos (by simp [h3])]
        simp only [List.length_cons]; push_cast; omega
      · simp only [ReadRun.issue_calls]
        rw [List.getLast?_cons, hc]; rfl
    · simp only [ReadRun.issue_calls, ReadRun.issue_result, List.forall_mem_cons] at hw h
      obtain ⟨hi, c, hc, hr⟩ := ih _ _ _ v ht hw.2 h hv
      refine ⟨?_, c, ?_, hr⟩
      · simp only [idle, ReadRun.issue_calls] at hi ⊢
        rw [List.filter_cons_of_neg (by simp [h3])]
        exact hi
      · simp only [ReadRun.issue_calls]
        rw [List.getLast?_cons, hc]; rfl
    · simp at h; omega

/-- Under the contract of `read(2)` the loop returns within
`(size - len) + (10 - timeout)` evaluations of its condition, `len` stays within `[0, size]`
and is the number of bytes delivered so far, and every read is issued at offset `len` for the
`size - len` bytes still missing. -/
theorem serial_read_loop_within (os_read : Nat → Int) (size : Int) :
    ∀ (fuel n : Nat) (len timeout : Int), 0 ≤ len → len ≤ size → timeout ≤ 9 →
      (size - len).toNat + (10 - timeout).toNat ≤ fuel →
      (∀ c ∈ (serial_read_loop os_read size fuel n len timeout).calls, c.ok) →
      ∃ v, (serial_read_loop os_read size fuel n len timeout).result = some v ∧
        (v = -1 ∨ (len ≤ v ∧ v ≤ size ∧
          v = len + (rets (serial_read_loop os_read size fuel n len timeout).calls).sum)) ∧
        ∀ (k : Nat) (c : ReadCall),
          (serial_read_loop os_read size fuel n len timeout).calls[k]? = some c →
          c.offset = len +
              ((rets (serial_read_loop os_read size fuel n len timeout).calls).take k).sum ∧
            c.count = size - c.offset ∧ 0 ≤ c.offset ∧ 0 < c.count := by
  intro fuel
  induction fuel with
  | zero => intro n len timeout h0 hs ht hf; omega
  | succ fuel ih =>
    intro n len timeout h0 hs ht hf hw
    rw [serial_read_loop_succ] at hw ⊢
    split_ifs at hw ⊢ with h1 h2 h3 h4
    · refine ⟨-1, rfl, Or.inl rfl, ?_⟩
      intro k c hk
      cases k with
      | zero => simp at hk; subst hk; simp [rets]; omega
      | succ k => simp at hk
    · refine ⟨len, rfl, Or.inr ⟨le_refl _, hs, by simp [rets, h3]⟩, ?_⟩
      intro k c hk
      cases k with
      | zero => simp at hk; subst hk; simp [rets]; omega
      | succ k => simp at hk
    · simp only [ReadRun.issue_calls, ReadRun.issue_result, List.forall_mem_cons] at hw ⊢
      obtain ⟨v, hv, hb, hc⟩ := ih (n + 1) len (timeout + 1) h0 hs (by omega) (by omega) hw.2
      refine ⟨v, hv, ?_, ?_⟩
      · rcases hb with hb | ⟨hb1, hb2, hb3⟩
        · exact Or.inl hb
        · exact Or.inr ⟨hb1, hb2, by simp [rets, h3] at hb3 ⊢; exact hb3⟩
      · intro k c hk
        cases k with
        | zero => simp at hk; subst hk; simp [rets]; omega
        | succ k =>
          simp only [List.getElem?_cons_succ] at hk
          have := hc k c hk
          simp only [rets, List.map_cons, List.take_succ_cons, List.sum_cons, h3] at this ⊢
          simpa using this
    · simp only [ReadRun.issue_calls, ReadRun.issue_result, List.forall_mem_cons] at hw ⊢
      have hok := hw.1
      simp only [ReadCall.ok] at hok
      have hr : 0 ≤ os_read n ∧ os_read n ≤ size - len := by
        rcases hok with hok | hok
        · exact absurd hok h2
        · exact hok
      obtain ⟨v, hv, hb, hc⟩ :=
        ih (n + 1) (len + os_read n) timeout (by omega) (by omega) ht (by omega) hw.2
      refine ⟨v, hv, ?_, ?_⟩
      · rcases hb with hb | ⟨hb1, hb2, hb3⟩
        · exact Or.inl hb
        · refine Or.inr ⟨by omega, hb2, ?_⟩
          simp only [rets, List.map_cons, List.sum_cons] at hb3 ⊢
          omega
      · intro k c hk
        cases k with
        | zero => simp at hk; subst hk; simp [rets]; omega
        | succ k =>
          simp only [List.getElem?_cons_succ] at hk
          have := hc k c hk
          simp only [rets, List.map_cons, List.take_succ_cons, List.sum_cons] at this ⊢
          omega
    · exact ⟨len, rfl, Or.inr ⟨le_refl _, hs, by simp [rets]⟩, by intro k c hk; simp at hk⟩

/-- When every result that is neither `-1` nor `0` delivers at least one byte, the loop
returns within `(size - len) + (10 - timeout)` evaluations of its condition, after at most
`(size - len) + (9 - timeout)` reads, of which at most `10 - timeout` were idle. -/
theorem serial_read_loop_terminates (os_read : Nat → Int) (size : Int) :
    ∀ (fuel n : Nat) (len timeout : Int), timeout ≤ 9 →
      (size - len).toNat + (10 - timeout).toNat ≤ fuel →
      (∀ c ∈ (serial_read_loop os_read size fuel n len timeout).calls,
        c.ret ≠ -1 → c.ret ≠ 0 → 1 ≤ c.ret) →
      ∃ v, (serial_read_loop os_read size fuel n len timeout).result = some v ∧
        (len < size →
          ((serial_read_loop os_read size fuel n len timeout).calls.length : Int)
            ≤ (size - len) + (9 - timeout)) ∧
        (size ≤ len → (serial_read_loop os_read size fuel n len timeout).calls = []) ∧
        ((idle (serial_read_loop os_read size fuel n len timeout).calls).length : Int)
          ≤ 10 - timeout := by
  intro fuel
  induction fuel with
  | zero => intro n len timeout ht hf; omega
  | succ fuel ih =>
    intro n len timeout ht hf hw
    rw [serial_read_loop_succ] at hw ⊢
    split_ifs at hw ⊢ with h1 h2 h3 h4
    · refine ⟨-1, rfl, ?_, by intro h; omega, ?_⟩
      · intro _; simp; omega
      · simp [idle, h2]; omega
    · refine ⟨len, rfl, ?_, by intro h; omega, ?_⟩
      · intro _; simp; omega
      · simp [idle, h3]; omega
    · simp only [ReadRun.issue_calls, ReadRun.issue_result, List.forall_mem_cons] at hw ⊢
      obtain ⟨v, hv, hb, _, hi⟩ := ih (n + 1) len (timeout + 1) (by omega) (by omega) hw.2
      refine ⟨v, hv, ?_, by intro h; omega, ?_⟩
      · intro _
        have := hb h1
        simp only [List.length_cons]; push_cast; omega
      · simp only [idle] at hi ⊢
        rw [List.filter_cons_of_pos (by simp [h3])]
        simp only [List.length_cons]; push_cast; omega
    · simp only [ReadRun.issue_calls, ReadRun.issue_result, List.forall_mem_cons] at hw ⊢
      have hr : 1 ≤ os_read n := hw.1 h2 h3
      obtain ⟨v, hv, hb, he, hi⟩ :=
        ih (n + 1) (len + os_read n) timeout ht (by omega) hw.2
      refine ⟨v, hv, ?_, by intro h; omega, ?_⟩
      · intro _
        by_cases hlt : len + os_read n < size
        · have := hb hlt
          simp only [List.length_cons]; push_cast; omega
        · rw [he (by omega)]
          simp; omega
      · simp only [idle] at hi ⊢
        rw [List.filter_cons_of_neg (by simp [h3])]
        omega
    · refine ⟨len, rfl, by intro h; omega, by intro _; rfl, ?_⟩
      simp [idle]; omega

/-! ### The read contract -/

/-- C1, as stated, fails: with `size = 2` and nine idle results, one byte, one idle result,
no read fails and `serial_read` returns 1 byte of the 2 asked for after 11 reads, but the
last 10 reads are not all idle: the byte was delivered among them. The idle counter is not
reset by the non-empty read. -/
theorem serial_read_idle_count_not_consecutive :
    (∀ i, nine_idle_then_one i ≠ -1) ∧
      (serial_read nine_idle_then_one 2 11).result = some 1 ∧
      (serial_read nine_idle_then_one 2 11).calls.length = 11 ∧
      ¬ (∀ c ∈ ((serial_read nine_idle_then_one 2 11).calls.reverse.take 10).reverse,
          c.ret = 0) := by
  refine ⟨?_, by decide, by decide, by decide⟩
  intro i
  unfold nine_idle_then_one
  split <;> decide

/-- C1, amended: for every `size > 0` and every run in which no low-level read fails, if
`serial_read` returns fewer than `size` bytes then exactly 10 of the low-level reads it
issued returned zero bytes (counted over the whole call, consecutive or not), and the last
read it issued is one of them. -/
theorem serial_read_short_after_ten_idle (os_read : Nat → Int) (size : Int) (fuel : Nat)
    (v : Int) (hsize : 0 < size)
    (hok : ∀ c ∈ (serial_read os_read size fuel).calls, c.ret ≠ -1)
    (hret : (serial_read os_read size fuel).result = some v) (hlt : v < size) :
    (idle (serial_read os_read size fuel).calls).length = 10 ∧
      ∃ c, (serial_read os_read size fuel).calls.getLast? = some c ∧ c.ret = 0 := by
  have _ := hsize
  obtain ⟨h1, h2⟩ := serial_read_loop_short os_read size fuel 0 0 0 v (by omega) hok hret hlt
  have h3 : ((idle (serial_read os_read size fuel).calls).length : Int) = 10 - 0 := h1
  exact ⟨by omega, h2⟩

theorem serial_read_short_after_ten_idle_witness :
    (idle (serial_read nine_idle_then_one 2 11).calls).length = 10 ∧
      ∃ c, (serial_read nine_idle_then_one 2 11).calls.getLast? = some c ∧ c.ret = 0 :=
  serial_read_short_after_ten_idle nine_idle_then_one 2 11 1 (by decide) (by decide)
    (by decide) (by decide)

/-- C2, as stated, fails: the result `-1` aborts the call only if the loop gets to read it.
With `size = 1` and results 1, -1, ... the second result is the first `-1`, but the first
read fills the buffer: `serial_read` issues one read and returns 1. With `size = 3` and ten
idle results followed by `-1`, the eleventh result is the first `-1`, but the loop gives up
at the tenth idle result: ten reads, return value 0. -/
theorem serial_read_error_not_reached :
    (one_then_error 0 ≠ -1 ∧ one_then_error 1 = -1 ∧
        (serial_read one_then_error 1 5).result = some 1 ∧
        (serial_read one_then_error 1 5).calls.length = 1) ∧
      ((∀ j < 10, ten_idle_then_error j ≠ -1) ∧ ten_idle_then_error 10 = -1 ∧
        (serial_read ten_idle_then_error 3 15).result = some 0 ∧
        (serial_read ten_idle_then_error 3 15).calls.length = 10) := by
  decide

/-- C2, amended: for every `size` and every sequence of low-level read results, if result
number `k` (counted from 0) is `-1`, the `k` results before it are byte counts that together
deliver fewer than `size` bytes, and fewer than 10 of them are zero, then `serial_read`
returns within `k + 1` evaluations of the loop condition, issues exactly `k + 1` low-level
reads and returns `-1`, whatever was accumulated before. Conversely, in a run whose results
keep the contract of `read(2)`, `serial_read` returns `-1` only when the last read it issued
was given `-1` by the source. The value recorded for every read issued is the one the source
gave for it. -/
theorem serial_read_error_aborts (os_read : Nat → Int) (size : Int) (fuel : Nat) :
    (∀ k : Nat, k + 1 ≤ fuel → (∀ j < k, 0 ≤ os_read j) →
        ((List.range k).map os_read).sum < size →
        (((List.range k).map os_read).filter (fun r => r = 0)).length < 10 →
        os_read k = -1 →
        (serial_read os_read size fuel).result = some (-1) ∧
          (serial_read os_read size fuel).calls.length = k + 1) ∧
      ((∀ c ∈ (serial_read os_read size fuel).calls, c.ok) →
        (serial_read os_read size fuel).result = some (-1) →
        ∃ k, (serial_read os_read size fuel).calls.length = k + 1 ∧ os_read k = -1) ∧
      rets (serial_read os_read size fuel).calls =
        (List.range (serial_read os_read size fuel).calls.length).map os_read := by
  have hmap : ∀ k, results_from os_read 0 k = (List.range k).map os_read := by
    intro k
    rw [results_from_eq_map]
    apply List.map_congr_left
    intro j _
    rw [Nat.zero_add]
  refine ⟨?_, ?_, ?_⟩
  · intro k hf hpos hroom hidle herr
    refine serial_read_loop_error_at os_read size k fuel 0 0 0 hf ?_ ?_ ?_ ?_
    · intro r hr
      rw [hmap] at hr
      obtain ⟨j, hj, rfl⟩ := List.mem_map.1 hr
      exact hpos j (List.mem_range.1 hj)
    · rw [hmap]; omega
    · rw [hmap]; omega
    · rw [Nat.zero_add]; exact herr
  · intro hw hr
    obtain ⟨k, hk, he⟩ :=
      serial_read_loop_minus_one os_read size fuel 0 0 0 (le_refl _) hw hr
    exact ⟨k, hk, by rw [Nat.zero_add] at he; exact he⟩
  · have := serial_read_loop_rets os_read size fuel 0 0 0
    rw [hmap] at this
    exact this

theorem serial_read_error_aborts_witness :
    ((serial_read two_then_error 5 7).result = some (-1) ∧
        (serial_read two_then_error 5 7).calls.length = 1 + 1) ∧
      ∃ k, (serial_read two_then_error 5 7).calls.length = k + 1 ∧ two_then_error k = -1 :=
  ⟨(serial_read_error_aborts two_then_error 5 7).1 1 (by decide) (by decide) (by decide)
      (by decide) (by decide),
   (serial_read_error_aborts two_then_error 5 7).2.1 (by decide) (by decide)⟩

/-- C3: for every `size ≥ 0` and every run in which each low-level result is `-1` or lies
between 0 and the byte count requested in that call, `serial_read` returns, and the value is
`-1` or a `len` with `0 ≤ len ≤ size` that is the sum of the byte counts of the reads issued;
every read is issued at the offset given by the bytes delivered before it and asks for the
`size - offset` bytes still missing (at least one), so `offset + count` never exceeds
`size`. -/
theorem serial_read_within_request (os_read : Nat → Int) (size : Int) (fuel : Nat)
    (hsize : 0 ≤ size) (hfuel : size.toNat + 10 ≤ fuel)
    (hok : ∀ c ∈ (serial_read os_read size fuel).calls, c.ok) :
    ∃ v, (serial_read os_read size fuel).result = some v ∧
      (v = -1 ∨ (0 ≤ v ∧ v ≤ size ∧ v = (rets (serial_read os_read size fuel).calls).sum)) ∧
      ∀ (k : Nat) (c : ReadCall), (serial_read os_read size fuel).calls[k]? = some c →
        c.offset = ((rets (serial_read os_read size fuel).calls).take k).sum ∧
          c.count = size - c.offset ∧ 0 ≤ c.offset ∧ 0 < c.count ∧
          c.offset + c.count ≤ size := by
  obtain ⟨v, hv, hb, hc⟩ :=
    serial_read_loop_within os_read size fuel 0 0 0 (le_refl _) hsize (by omega)
      (by simpa using hfuel) hok
  refine ⟨v, hv, ?_, ?_⟩
  · rcases hb with hb | hb
    · exact Or.inl hb
    · exact Or.inr (by simpa using hb)
  · intro k c hk
    have := hc k c hk
    simp only [zero_add] at this
    refine ⟨this.1, this.2.1, this.2.2.1, this.2.2.2, ?_⟩
    omega

theorem serial_read_within_request_witness :
    ∃ v, (serial_read two_idle_three 5 15).result = some v ∧
      (v = -1 ∨ (0 ≤ v ∧ v ≤ 5 ∧ v = (rets (serial_read two_idle_three 5 15).calls).sum)) ∧
      ∀ (k : Nat) (c : ReadCall), (serial_read two_idle_three 5 15).calls[k]? = some c →
        c.offset = ((rets (serial_read two_idle_three 5 15).calls).take k).sum ∧
          c.count = 5 - c.offset ∧ 0 ≤ c.offset ∧ 0 < c.count ∧
          c.offset + c.count ≤ 5 :=
  serial_read_within_request two_idle_three 5 15 (by decide) (by decide) (by decide)

/-- C4: for every `size` and every run in which each result that is neither `-1` nor `0`
delivers at least 1 and at most the requested number of bytes, `serial_read` returns once
the loop condition may be evaluated `size + 10` times: it issues at most `size + 9` low-level
reads when `size > 0` and none when `size ≤ 0`, at most 10 of them returned zero bytes, and a
larger iteration budget gives the same run. -/
theorem serial_read_terminates (os_read : Nat → Int) (size : Int) (fuel : Nat)
    (hfuel : size.toNat + 10 ≤ fuel)
    (hok : ∀ c ∈ (serial_read os_read size fuel).calls,
      c.ret ≠ -1 → c.ret ≠ 0 → 1 ≤ c.ret ∧ c.ret ≤ c.count) :
    ∃ v, (serial_read os_read size fuel).result = some v ∧
      (0 < size → ((serial_read os_read size fuel).calls.length : Int) ≤ size + 9) ∧
      (size ≤ 0 → (serial_read os_read size fuel).calls = []) ∧
      (idle (serial_read os_read size fuel).calls).length ≤ 10 ∧
      ∀ fuel2, fuel ≤ fuel2 →
        serial_read os_read size fuel2 = serial_read os_read size fuel := by
  obtain ⟨v, hv, hb, he, hi⟩ :=
    serial_read_loop_terminates os_read size fuel 0 0 0 (by omega) (by simpa using hfuel)
      (fun c hc h1 h2 => (hok c hc h1 h2).1)
  refine ⟨v, hv, ?_, ?_, ?_, ?_⟩
  · intro hs
    have := hb hs
    have e : ((serial_read os_read size fuel).calls.length : Int)
        ≤ size - 0 + (9 - 0) := this
    omega
  · intro hs
    exact he hs
  · have e : ((idle (serial_read os_read size fuel).calls).length : Int) ≤ 10 - 0 := hi
    omega
  · intro fuel2 hle
    exact serial_read_loop_stable os_read size fuel 0 0 0 v hv fuel2 hle

theorem serial_read_terminates_witness :
    ∃ v, (serial_read two_idle_three 5 15).result = some v ∧
      ((0 : Int) < 5 → ((serial_read two_idle_three 5 15).calls.length : Int) ≤ 5 + 9) ∧
      ((5 : Int) ≤ 0 → (serial_read two_idle_three 5 15).calls = []) ∧
      (idle (serial_read two_idle_three 5 15).calls).length ≤ 10 ∧
      ∀ fuel2, 15 ≤ fuel2 →
        serial_read two_idle_three 5 fuel2 = serial_read two_idle_three 5 15 :=
  serial_read_terminates two_idle_three 5 15 (by decide) (by decide)

/-- C7: for every `size > 0`, if every low-level read returns 0 then `serial_read` issues
exactly 10 low-level reads, each at offset 0 asking for all `size` bytes, and returns 0;
ten evaluations of the loop condition are enough. -/
theorem serial_read_silent_source (os_read : Nat → Int) (size : Int) (fuel : Nat)
    (hsize : 0 < size) (hsilent : ∀ i, os_read i = 0) (hfuel : 10 ≤ fuel) :
    serial_read os_read size fuel = ⟨some 0, List.replicate 10 ⟨0, size, 0⟩⟩ :=
  serial_read_loop_silent os_read size hsize hsilent fuel 0 0 (le_refl _) (by omega)
    (by simpa using hfuel)

theorem serial_read_silent_source_witness :
    serial_read (fun _ => 0) 5 10 = ⟨some 0, List.replicate 10 ⟨0, 5, 0⟩⟩ :=
  serial_read_silent_source (fun _ => 0) 5 10 (by decide) (fun _ => rfl) (by decide)

end Posix

namespace Linux

/-- C5, as stated, fails: a timeout of 150 ms is stored as `VTIME = 1`, that is 100 ms, which
is below the timeout asked for; the division rounds down. -/
theorem serial_set_read_timeout_rounds_down :
    (0 : Nat) < 150 ∧ 150 < 2 ^ 32 ∧
      ∃ tty, (serial_set_read_timeout (0, ⟨none, none, 0, 0⟩) (fun _ => 0) 150).2 = some tty ∧
        tty.c_cc_VTIME = 1 ∧ ¬ (tty.c_cc_VTIME * 100 ≥ 150) :=
  ⟨by decide, by decide, ⟨none, none, 1, 0⟩, by decide, rfl, by decide⟩

/-- C5, amended: for every `timeoutMs` with `0 < timeoutMs < 25600`, when `tcgetattr`
succeeds the `VTIME` handed to `tcsetattr` is 1 for a timeout below 100 ms and
`timeoutMs / 100` rounded down otherwise; so `VTIME ≥ 1`, `timeoutMs < (VTIME + 1) * 100`,
and `VTIME * 100 ≥ timeoutMs` holds exactly when `timeoutMs < 100` or `timeoutMs` is a
multiple of 100. -/
theorem serial_set_read_timeout_quantizes (tcgetattr : Int × termios)
    (tcsetattr : termios → Int) (timeoutMs : Nat) (hget : 0 ≤ tcgetattr.1)
    (hpos : 0 < timeoutMs) (hlt : timeoutMs < 25600) :
    ∃ tty, (serial_set_read_timeout tcgetattr tcsetattr timeoutMs).2 = some tty ∧
      tty.c_cc_VTIME = max 1 (timeoutMs / 100) ∧
      1 ≤ tty.c_cc_VTIME ∧
      timeoutMs < (tty.c_cc_VTIME + 1) * 100 ∧
      (tty.c_cc_VTIME * 100 ≥ timeoutMs ↔ timeoutMs < 100 ∨ timeoutMs % 100 = 0) := by
  have hg : ¬ tcgetattr.1 < 0 := by omega
  have hv : vtime_of_timeout timeoutMs = max 1 (timeoutMs / 100) := by
    unfold vtime_of_timeout to_cc_t
    split_ifs with h
    · have : timeoutMs / 100 = 0 := by omega
      simp [this]
    · have h1 : 1 ≤ timeoutMs / 100 := by omega
      have h2 : timeoutMs / 100 < 256 := by omega
      rw [Nat.mod_eq_of_lt h2, max_eq_right h1]
  refine ⟨{ tcgetattr.2 with c_cc_VTIME := vtime_of_timeout timeoutMs, c_cc_VMIN := to_cc_t 0 },
    ?_, hv, ?_, ?_, ?_⟩
  · unfold serial_set_read_timeout
    simp only [hg, if_false]
    split_ifs <;> rfl
  · show 1 ≤ vtime_of_timeout timeoutMs
    rw [hv]; exact le_max_left _ _
  · show timeoutMs < (vtime_of_timeout timeoutMs + 1) * 100
    rw [hv]
    rcases le_total 1 (timeoutMs / 100) with h | h
    · rw [max_eq_right h]; omega
    · rw [max_eq_left h]; omega
  · show vtime_of_timeout timeoutMs * 100 ≥ timeoutMs ↔ _
    rw [hv]
    rcases le_total 1 (timeoutMs / 100) with h | h
    · rw [max_eq_right h]; omega
    · rw [max_eq_left h]; omega

theorem serial_set_read_timeout_quantizes_witness :
    ∃ tty, (serial_set_read_timeout (0, ⟨none, none, 0, 0⟩) (fun _ => 0) 250).2 = some tty ∧
      tty.c_cc_VTIME = max 1 (250 / 100) ∧
      1 ≤ tty.c_cc_VTIME ∧
      250 < (tty.c_cc_VTIME + 1) * 100 ∧
      (tty.c_cc_VTIME * 100 ≥ 250 ↔ 250 < 100 ∨ 250 % 100 = 0) :=
  serial_set_read_timeout_quantizes (0, ⟨none, none, 0, 0⟩) (fun _ => 0) 250 (by decide)
    (by decide) (by decide)

/-- C6, the code at the failing input: a timeout of 25600 ms is a positive 32-bit value,
`25600 / 100 = 256` does not fit the 8-bit `VTIME`, and the value handed to `tcsetattr` is
`VTIME = 0` with `VMIN = 0`, the non-blocking setting. -/
theorem serial_set_read_timeout_vtime_wraps :
    (0 : Nat) < 25600 ∧ 25600 < 2 ^ 32 ∧
      serial_set_read_timeout (0, ⟨none, none, 0, 0⟩) (fun _ => 0) 25600 =
        (0, some ⟨none, none, 0, 0⟩) := by
  decide


/-- The `switch` recognises exactly the six standard speeds and maps each to the symbol the
rate table gives for it; any other speed is left as it is and flagged as custom. -/
theorem speed_switch_cases (B : BaudConstants) (speed : Nat) :
    (speed ∈ standard_speeds ∧ (∀ b, (speed, b) ∈ rate_table B ↔ b = (speed_switch B speed).1) ∧
        (speed_switch B speed).2 = false) ∨
      (speed ∉ standard_speeds ∧ speed_switch B speed = (speed, true)) := by
  unfold speed_switch standard_speeds rate_table
  split_ifs with h1 h2 h3 h4 h5 h6
  · left; subst h1; simp
  · left; subst h2; simp
  · left; subst h3; simp
  · left; subst h4; simp
  · left; subst h5; simp
  · left; subst h6; simp
  · right; simp [h1, h2, h3, h4, h5, h6]

/-- C8: the Linux `serial_setup` takes the standard path (`cfsetospeed` then `cfsetispeed`,
with the symbol the rate table gives for the speed) exactly when the speed is one of 9600,
19200, 38400, 57600, 115200, 230400, and hands every other speed unchanged to
`cfsetospeed_custom` then `cfsetispeed_custom`; the second rate call is made only after the
first succeeded; when a rate call fails it returns `-1` and `tcsetattr` is not called; it
returns `0` or `-1`, and `0` only after three calls, two rate calls and `tcsetattr` with
`VTIME = 0` and `VMIN = 0`, that all succeeded. -/
theorem serial_setup_rate_dispatch (B : BaudConstants) (os : Os) (speed : Nat) :
    ((∃ b, (serial_setup B os speed).2.head? = some (.cfsetospeed b)) ↔
        speed ∈ standard_speeds) ∧
      (∀ b, (speed, b) ∈ rate_table B →
        (serial_setup B os speed).2.head? = some (.cfsetospeed b) ∧
          ((serial_setup B os speed).2[1]? = some (.cfsetispeed b) ↔ 0 ≤ os.cfsetospeed b)) ∧
      (speed ∉ standard_speeds →
        (serial_setup B os speed).2.head? = some (.cfsetospeed_custom speed) ∧
          ((serial_setup B os speed).2[1]? = some (.cfsetispeed_custom speed) ↔
            0 ≤ os.cfsetospeed_custom speed)) ∧
      ((∃ c ∈ (serial_setup B os speed).2.take 2, os.status c < 0) →
        (serial_setup B os speed).1 = -1 ∧
          ∀ tty, OsCall.tcsetattr tty ∉ (serial_setup B os speed).2) ∧
      ((serial_setup B os speed).1 = 0 ∨ (serial_setup B os speed).1 = -1) ∧
      ((serial_setup B os speed).1 = 0 →
        (∀ c ∈ (serial_setup B os speed).2, 0 ≤ os.status c) ∧
          ∃ o i tty, (serial_setup B os speed).2 = [o, i, .tcsetattr tty] ∧
            tty.c_cc_VTIME = 0 ∧ tty.c_cc_VMIN = 0) := by
  rcases speed_switch_cases B speed with ⟨hm, ht, hf⟩ | ⟨hm, hs⟩
  · obtain ⟨b, hb⟩ : ∃ b, speed_switch B speed = (b, false) :=
      ⟨(speed_switch B speed).1, Prod.ext rfl hf⟩
    have ht2 : ∀ b2, (speed, b2) ∈ rate_table B → b2 = b := by
      intro b2 h2; rw [hb] at ht; exact (ht b2).1 h2
    by_cases ho : os.cfsetospeed b < 0
    · have hrun : serial_setup B os speed = (-1, [.cfsetospeed b]) := by
        unfold serial_setup; simp [hb, ho]
      rw [hrun]
      refine ⟨⟨fun _ => hm, fun _ => ⟨b, rfl⟩⟩, fun b2 h2 => ⟨by rw [ht2 b2 h2]; rfl, by rw [ht2 b2 h2]; simp; omega⟩,
        fun h => absurd hm h, fun _ => ⟨rfl, by simp⟩, Or.inr rfl, fun h => by simp at h⟩
    · by_cases hi : os.cfsetispeed b < 0
      · have hrun : serial_setup B os speed = (-1, [.cfsetospeed b, .cfsetispeed b]) := by
          unfold serial_setup; simp [hb, ho, hi]
        rw [hrun]
        refine ⟨⟨fun _ => hm, fun _ => ⟨b, rfl⟩⟩, fun b2 h2 => ⟨by rw [ht2 b2 h2]; rfl, by rw [ht2 b2 h2]; simp; omega⟩,
          fun h => absurd hm h, fun _ => ⟨rfl, by simp⟩, Or.inr rfl, fun h => by simp at h⟩
      · by_cases hset : os.tcsetattr ⟨some (.standard b), some (.standard b), 0, 0⟩ < 0
        · have hrun : serial_setup B os speed = (-1, [.cfsetospeed b, .cfsetispeed b,
              .tcsetattr ⟨some (.standard b), some (.standard b), 0, 0⟩]) := by
            unfold serial_setup serial_setup_apply; simp [hb, ho, hi, hset, to_cc_t]
          rw [hrun]
          refine ⟨⟨fun _ => hm, fun _ => ⟨b, rfl⟩⟩, fun b2 h2 => ⟨by rw [ht2 b2 h2]; rfl, by rw [ht2 b2 h2]; simp; omega⟩,
            fun h => absurd hm h, ?_, Or.inr rfl, fun h => by simp at h⟩
          · intro h; simp [Os.status] at h; omega
        · have hrun : serial_setup B os speed = (0, [.cfsetospeed b, .cfsetispeed b,
              .tcsetattr ⟨some (.standard b), some (.standard b), 0, 0⟩]) := by
            unfold serial_setup serial_setup_apply; simp [hb, ho, hi, hset, to_cc_t]
          rw [hrun]
          refine ⟨⟨fun _ => hm, fun _ => ⟨b, rfl⟩⟩, fun b2 h2 => ⟨by rw [ht2 b2 h2]; rfl, by rw [ht2 b2 h2]; simp; omega⟩,
            fun h => absurd hm h, ?_, Or.inl rfl, fun _ => ⟨?_, _, _, _, rfl, rfl, rfl⟩⟩
          · intro h; simp [Os.status] at h; omega
          · simp [Os.status]; omega
  · have hnot : ∀ b, (speed, b) ∉ rate_table B := by
      intro b hb
      apply hm
      unfold rate_table at hb
      unfold standard_speeds
      simp only [List.mem_cons, Prod.mk.injEq, List.mem_singleton, List.not_mem_nil,
        or_false] at hb ⊢
      tauto
    by_cases ho : os.cfsetospeed_custom speed < 0
    · have hrun : serial_setup B os speed = (-1, [.cfsetospeed_custom speed]) := by
        unfold serial_setup; simp [hs, ho]
      rw [hrun]
      refine ⟨⟨fun h => by simp at h, fun h => absurd h hm⟩, fun b hb => absurd hb (hnot b),
        fun _ => ⟨rfl, ?_⟩, fun _ => ⟨rfl, by simp⟩, Or.inr rfl, fun h => by simp at h⟩
      simp; omega
    · by_cases hi : os.cfsetispeed_custom speed < 0
      · have hrun : serial_setup B os speed =
            (-1, [.cfsetospeed_custom speed, .cfsetispeed_custom speed]) := by
          unfold serial_setup; simp [hs, ho, hi]
        rw [hrun]
        refine ⟨⟨fun h => by simp at h, fun h => absurd h hm⟩, fun b hb => absurd hb (hnot b),
          fun _ => ⟨rfl, ?_⟩, fun _ => ⟨rfl, by simp⟩, Or.inr rfl, fun h => by simp at h⟩
        simp; omega
      · by_cases hset : os.tcsetattr ⟨some (.custom speed), some (.custom speed), 0, 0⟩ < 0
        · have hrun : serial_setup B os speed =
              (-1, [.cfsetospeed_custom speed, .cfsetispeed_custom speed,
                .tcsetattr ⟨some (.custom speed), some (.custom speed), 0, 0⟩]) := by
            unfold serial_setup serial_setup_apply; simp [hs, ho, hi, hset, to_cc_t]
          rw [hrun]
          refine ⟨⟨fun h => by simp at h, fun h => absurd h hm⟩,
            fun b hb => absurd hb (hnot b), fun _ => ⟨rfl, ?_⟩, ?_, Or.inr rfl,
            fun h => by simp at h⟩
          · simp; omega
          · intro h; simp [Os.status] at h; omega
        · have hrun : serial_setup B os speed =
              (0, [.cfsetospeed_custom speed, .cfsetispeed_custom speed,
                .tcsetattr ⟨some (.custom speed), some (.custom speed), 0, 0⟩]) := by
            unfold serial_setup serial_setup_apply; simp [hs, ho, hi, hset, to_cc_t]
          rw [hrun]
          refine ⟨⟨fun h => by simp at h, fun h => absurd h hm⟩,
            fun b hb => absurd hb (hnot b), fun _ => ⟨rfl, ?_⟩, ?_, Or.inl rfl,
            fun _ => ⟨?_, _, _, _, rfl, rfl, rfl⟩⟩
          · simp; omega
          · intro h; simp [Os.status] at h; omega
          · simp [Os.status]; omega

theorem serial_setup_rate_dispatch_witness :
    (serial_setup linux_baud os_accepts 115200).2.head? = some (.cfsetospeed 4098) ∧
      ((serial_setup linux_baud os_accepts 115200).2[1]? = some (.cfsetispeed 4098) ↔
        0 ≤ os_accepts.cfsetospeed 4098) :=
  (serial_setup_rate_dispatch linux_baud os_accepts 115200).2.1 4098 (by decide)

end Linux

namespace Win32

theorem c_str_terminated (text rest : List Char) (h : NUL ∉ text) :
    c_str (text ++ NUL :: rest) = text := by
  induction text with
  | nil => simp [c_str]
  | cons a t ih =>
    have ha : a ≠ NUL := fun e => h (by simp [e])
    have ht : NUL ∉ t := fun e => h (by simp [e])
    have := ih ht
    simp only [c_str] at this ⊢
    simp only [List.cons_append, List.takeWhile_cons, ha, ne_eq, not_false_eq_true,
      decide_True, if_true, this]

theorem drop_last_of_terminated (full_path : List Char) (hlen : full_path.length = 32)
    (hterm : full_path[31]? = some NUL) : full_path.drop 31 = [NUL] := by
  have h31 : 31 < full_path.length := by omega
  rw [List.drop_eq_getElem_cons h31]
  have e : full_path[31] = NUL := by
    rw [List.getElem?_eq_getElem h31] at hterm
    exact Option.some.inj hterm
  rw [e, List.drop_eq_nil_of_le (by omega)]

/-- After `_snprintf` into the 32-byte buffer with count 31, the buffer still has 32 bytes,
still ends in `NUL`, and holds the first 31 characters of the text. -/
theorem snprintf_full_path (full_path text : List Char) (hlen : full_path.length = 32)
    (hterm : full_path[31]? = some NUL) (htext : NUL ∉ text) :
    (_snprintf full_path 31 text).length = 32 ∧
      (_snprintf full_path 31 text)[31]? = some NUL ∧
      c_str (_snprintf full_path 31 text) = text.take 31 := by
  have hd := drop_last_of_terminated full_path hlen hterm
  unfold _snprintf
  split_ifs with h
  · refine ⟨?_, ?_, ?_⟩
    · simp; omega
    · rw [List.getElem?_append_right (by omega)]
      have e : 31 - text.length = (30 - text.length) + 1 := by omega
      rw [e, List.getElem?_cons_succ, List.getElem?_drop]
      have e2 : text.length + 1 + (30 - text.length) = 31 := by omega
      rw [e2, hterm]
    · rw [c_str_terminated _ _ htext, List.take_of_length_le (by omega)]
  · rw [hd]
    have hl : (text.take 31).length = 31 := by simp; omega
    refine ⟨by simp; omega, ?_, ?_⟩
    · rw [List.getElem?_append_right (by omega)]
      simp [hl]
    · exact c_str_terminated _ _ (fun hm => htext (List.mem_of_mem_take hm))

/-- C10, as stated, fails. A name that starts with one backslash does not start with the
lead `\\.\`, yet it is handed to `CreateFileA` unchanged, without the lead. And a name of 28
characters that does not start with a backslash is handed over cut to 31 characters, not as
the lead followed by the complete name. -/
theorem serial_open_path_not_always_complete :
    (¬ device_path_lead <+: single_backslash_name ∧
        (serial_open (fun _ => 5) full_path_initial single_backslash_name).path
          = single_backslash_name ∧
        (serial_open (fun _ => 5) full_path_initial single_backslash_name).path
          ≠ device_path_lead ++ single_backslash_name) ∧
      (¬ device_path_lead <+: long_port_name ∧
        (serial_open (fun _ => 5) full_path_initial long_port_name).path
          = (device_path_lead ++ long_port_name).take 31 ∧
        (serial_open (fun _ => 5) full_path_initial long_port_name).path
          ≠ device_path_lead ++ long_port_name) := by
  decide

/-- C10, amended: the static buffer being 32 bytes ending in `NUL` (as it is initially, and
as every call leaves it), for every port name whose first character is not a backslash the
path handed to `CreateFileA` is the first 31 characters of the lead `\\.\` followed by the
name, which is the lead followed by the complete name when the name has at most 27
characters; for every name whose first character is a backslash, in particular every name
that starts with the lead, the path is the name unchanged. -/
theorem serial_open_path_normalized (CreateFileA : List Char → Int)
    (full_path port : List Char) (hlen : full_path.length = 32)
    (hterm : full_path[31]? = some NUL) (hport : NUL ∉ port) :
    (port.head? ≠ some backslash →
        (serial_open CreateFileA full_path port).path = (device_path_lead ++ port).take 31 ∧
          (port.length ≤ 27 →
            (serial_open CreateFileA full_path port).path = device_path_lead ++ port)) ∧
      (port.head? = some backslash → (serial_open CreateFileA full_path port).path = port) ∧
      (device_path_lead <+: port → (serial_open CreateFileA full_path port).path = port) ∧
      (serial_open CreateFileA full_path port).full_path.length = 32 ∧
      (serial_open CreateFileA full_path port).full_path[31]? = some NUL := by
  have htext : NUL ∉ device_path_lead ++ port := by
    intro h
    rcases List.mem_append.1 h with h | h
    · revert h; decide
    · exact hport h
  obtain ⟨s1, s2, s3⟩ := snprintf_full_path full_path (device_path_lead ++ port) hlen hterm htext
  have hpath : ∀ r : List Char × List Char,
      (if CreateFileA r.1 = 0 ∨ CreateFileA r.1 = -1 then (⟨-1, r.1, r.2⟩ : OpenRun)
        else ⟨to_int (CreateFileA r.1), r.1, r.2⟩).path = r.1 ∧
      (if CreateFileA r.1 = 0 ∨ CreateFileA r.1 = -1 then (⟨-1, r.1, r.2⟩ : OpenRun)
        else ⟨to_int (CreateFileA r.1), r.1, r.2⟩).full_path = r.2 := by
    intro r; split_ifs <;> exact ⟨rfl, rfl⟩
  have hhead : port.headD NUL ≠ backslash ↔ port.head? ≠ some backslash := by
    cases port with
    | nil => simp; decide
    | cons a t => simp
  by_cases hb : port.headD NUL ≠ backslash
  · have hrun : (serial_open CreateFileA full_path port).path
          = c_str (_snprintf full_path 31 (device_path_lead ++ port)) ∧
        (serial_open CreateFileA full_path port).full_path
          = _snprintf full_path 31 (device_path_lead ++ port) := by
      unfold serial_open
      simp only [hb, ne_eq, not_false_eq_true, if_true]
      exact hpath (_, _)
    rw [hrun.1, hrun.2, s3]
    refine ⟨fun _ => ⟨rfl, fun h27 => ?_⟩, fun h => absurd h (hhead.1 hb), ?_, s1, s2⟩
    · apply List.take_of_length_le
      simp [device_path_lead]; omega
    · intro hpre
      exfalso
      apply hhead.1 hb
      obtain ⟨t, rfl⟩ := hpre
      rfl
  · have hrun : (serial_open CreateFileA full_path port).path = port ∧
        (serial_open CreateFileA full_path port).full_path = full_path := by
      unfold serial_open
      simp only [hb, if_false]
      exact hpath (_, _)
    rw [hrun.1, hrun.2]
    refine ⟨fun h => absurd (hhead.2 h) hb, fun _ => rfl, fun _ => rfl, hlen, hterm⟩

theorem serial_open_path_normalized_witness :
    (['C', 'O', 'M', '1', '2'].head? ≠ some backslash →
        (serial_open (fun _ => 5) full_path_initial ['C', 'O', 'M', '1', '2']).path
            = (device_path_lead ++ ['C', 'O', 'M', '1', '2']).take 31 ∧
          (['C', 'O', 'M', '1', '2'].length ≤ 27 →
            (serial_open (fun _ => 5) full_path_initial ['C', 'O', 'M', '1', '2']).path
              = device_path_lead ++ ['C', 'O', 'M', '1', '2'])) ∧
      (['C', 'O', 'M', '1', '2'].head? = some backslash →
        (serial_open (fun _ => 5) full_path_initial ['C', 'O', 'M', '1', '2']).path
          = ['C', 'O', 'M', '1', '2']) ∧
      (device_path_lead <+: ['C', 'O', 'M', '1', '2'] →
        (serial_open (fun _ => 5) full_path_initial ['C', 'O', 'M', '1', '2']).path
          = ['C', 'O', 'M', '1', '2']) ∧
      (serial_open (fun _ => 5) full_path_initial ['C', 'O', 'M', '1', '2']).full_path.length
        = 32 ∧
      (serial_open (fun _ => 5) full_path_initial ['C', 'O', 'M', '1', '2']).full_path[31]?
        = some NUL :=
  serial_open_path_normalized (fun _ => 5) full_path_initial ['C', 'O', 'M', '1', '2']
    (by decide) (by decide) (by decide)

end Win32

/-- C9, as stated, fails: when `WriteFile` reports failure the Windows variant of
`serial_write` returns 0, not -1. -/
theorem serial_write_win32_failure_returns_zero :
    Win32.serial_write (fun _ _ => (false, 0)) [1, 2, 3] 3 = (0, [⟨[1, 2, 3], 3⟩]) ∧
      (Win32.serial_write (fun _ _ => (false, 0)) [1, 2, 3] 3).1 ≠ -1 := by
  decide

/-- C9, amended: for every buffer and size, both variants of `serial_write` issue exactly one
OS write call, with the buffer and size they were given, and return the OS-reported byte
count unchanged when that call succeeds (a count that fits `int`, as every count not above
`size` does; a partial count included); when the OS write primitive reports failure the
POSIX variant returns the `-1` that `write` reported and the Windows variant returns 0. -/
theorem serial_write_pass_through (os_write : List Nat → Int → Int)
    (WriteFile : List Nat → Int → Bool × Nat) (buf : List Nat) (size : Int) :
    ((Posix.serial_write os_write buf size).2 = [⟨buf, size⟩] ∧
        (-2147483648 ≤ os_write buf size → os_write buf size < 2147483648 →
          (Posix.serial_write os_write buf size).1 = os_write buf size) ∧
        (os_write buf size = -1 → (Posix.serial_write os_write buf size).1 = -1)) ∧
      ((Win32.serial_write WriteFile buf size).2 = [⟨buf, size⟩] ∧
        ((WriteFile buf size).1 = true → (WriteFile buf size).2 < 2147483648 →
          (Win32.serial_write WriteFile buf size).1 = (WriteFile buf size).2) ∧
        ((WriteFile buf size).1 = false → (Win32.serial_write WriteFile buf size).1 = 0)) := by
  refine ⟨⟨rfl, ?_, ?_⟩, ?_, ?_, ?_⟩
  · intro h1 h2
    simp only [Posix.serial_write, to_int]
    omega
  · intro h
    simp only [Posix.serial_write, to_int, h]
    decide
  · simp only [Win32.serial_write]
    split_ifs <;> rfl
  · intro h1 h2
    unfold Win32.serial_write
    simp only [h1, Bool.not_true, Bool.false_eq_true, if_false, to_int]
    omega
  · intro h
    unfold Win32.serial_write
    simp [h]

theorem serial_write_pass_through_witness :
    (Posix.serial_write (fun _ _ => 2) [1, 2, 3] 3).1 = 2 ∧
      (Posix.serial_write (fun _ _ => -1) [1, 2, 3] 3).1 = -1 ∧
      (Win32.serial_write (fun _ _ => (true, 2)) [1, 2, 3] 3).1 = ((2 : Nat) : Int) ∧
      (Win32.serial_write (fun _ _ => (false, 0)) [1, 2, 3] 3).1 = 0 :=
  ⟨(serial_write_pass_through (fun _ _ => 2) (fun _ _ => (true, 2)) [1, 2, 3] 3).1.2.1
      (by decide) (by decide),
    (serial_write_pass_through (fun _ _ => -1) (fun _ _ => (true, 2)) [1, 2, 3] 3).1.2.2 rfl,
    (serial_write_pass_through (fun _ _ => 2) (fun _ _ => (true, 2)) [1, 2, 3] 3).2.2.1
      rfl (by decide),
    (serial_write_pass_through (fun _ _ => 2) (fun _ _ => (false, 0)) [1, 2, 3] 3).2.2.2 rfl⟩

end Blhost
